import Mathlib

/-!
Verification of the Phisherman URL-analysis system.

The frontend definitions are shallow embeddings of the TypeScript sources under
`phisherman-frontend/src`; numeric `number` fields are embedded as rationals.
The backend pipeline (orchestrator, scorer, verdict cache, feed lookup) is not
part of the shipped sources, so those definitions are modelled from the
specification document and are marked `Modelled from the spec`.
-/

namespace Phisherman

/-- The per-analyzer result record, from the frontend API type
`AnalyzerResult` in `src/types/api.ts` (matching the spec's data model). -/
structure AnalyzerResult where
  name : String
  score : ℚ
  confidence : ℚ
  labels : List String
  evidence : List (String × String)
  execution_time_ms : ℚ
  error : Option String
deriving DecidableEq

/-- The aggregate analysis response, from the frontend API type
`AnalysisResponse` in `src/types/api.ts` (the spec's `AnalysisResult`). -/
structure AnalysisResponse where
  url : String
  malicious : Bool
  score : ℚ
  confidence : ℚ
  labels : List String
  evidence : List (String × String)
  analyzers : List AnalyzerResult
  analysis_id : Option String
  timestamp : String
  processing_time_ms : ℚ
  cached : Bool
  version : Option String
deriving DecidableEq

/-- A browser-history entry, from `HistoryEntry` in `src/types/api.ts`. -/
structure HistoryEntry where
  id : String
  url : String
  score : ℚ
  malicious : Bool
  timestamp : String
  labels : List String
deriving DecidableEq

/-- The structured error body, from `ApiError` in `src/types/api.ts`:
only a numeric code, a message and a type tag. -/
structure ApiErrorBody where
  code : Int
  message : String
  type : String
deriving DecidableEq

/-! ## Browser history store (`src/hooks/useHistory.ts`) -/

/-- The history size cap `MAX_HISTORY_ITEMS` from `useHistory.ts`. -/
def MAX_HISTORY_ITEMS : Nat := 20

/-- Building the `HistoryEntry` recorded by `addEntry` in `useHistory.ts`:
`id` is `response.analysis_id || crypto.randomUUID()` (the fresh UUID is
passed in as `freshId`; the `||` falls through on an empty string), and only
the first three labels are kept. -/
def mkHistoryEntry (response : AnalysisResponse) (freshId : String) : HistoryEntry :=
  { id := match response.analysis_id with
      | some s => if s = "" then freshId else s
      | none => freshId
    url := response.url
    score := response.score
    malicious := response.malicious
    timestamp := response.timestamp
    labels := response.labels.take 3 }

/-- The state update of `addEntry` in `useHistory.ts`: drop entries with the
same URL, prepend the new entry, truncate to `MAX_HISTORY_ITEMS`. -/
def addEntry (newEntry : HistoryEntry) (prev : List HistoryEntry) : List HistoryEntry :=
  let filtered := prev.filter fun entry => entry.url ≠ newEntry.url
  (newEntry :: filtered).take MAX_HISTORY_ITEMS

/-- The state update of `removeEntry` in `useHistory.ts`. -/
def removeEntry (id : String) (prev : List HistoryEntry) : List HistoryEntry :=
  prev.filter fun entry => entry.id ≠ id

/-- The state update of `clearHistory` in `useHistory.ts`. -/
def clearHistory : List HistoryEntry := []

/-- The history invariant: at most `MAX_HISTORY_ITEMS` entries, with
pairwise-distinct URLs. -/
def historyInvariant (l : List HistoryEntry) : Prop :=
  l.length ≤ MAX_HISTORY_ITEMS ∧ (l.map HistoryEntry.url).Nodup

/-- The history-recording effect of the `Home` page (`src/unnamed/part_000`):
`if (data && !data.cached) addEntry(data)`. -/
def homeRecord (hist : List HistoryEntry) (data : Option AnalysisResponse)
    (freshId : String) : List HistoryEntry :=
  match data with
  | some d => if d.cached then hist else addEntry (mkHistoryEntry d freshId) hist
  | none => hist

/-- Iterating the `Home` page effect over a sequence of analysis outcomes,
each paired with the fresh UUID available at that step. -/
def homeRun (steps : List (Option AnalysisResponse × String))
    (hist : List HistoryEntry) : List HistoryEntry :=
  steps.foldl (fun h s => homeRecord h s.1 s.2) hist

lemma mem_addEntry {e n : HistoryEntry} {prev : List HistoryEntry}
    (h : e ∈ addEntry n prev) : e = n ∨ e ∈ prev := by
  unfold addEntry at h
  have h' := List.take_subset MAX_HISTORY_ITEMS _ h
  rcases List.mem_cons.mp h' with h1 | h1
  · exact Or.inl h1
  · exact Or.inr (List.mem_of_mem_filter h1)

lemma addEntry_invariant {n : HistoryEntry} {prev : List HistoryEntry}
    (h : historyInvariant prev) : historyInvariant (addEntry n prev) := by
  have hsub : List.Sublist (addEntry n prev)
      (n :: prev.filter fun entry => entry.url ≠ n.url) :=
    List.take_sublist _ _
  constructor
  · exact List.length_take_le _ _
  · refine List.Nodup.sublist (List.Sublist.map _ hsub) ?_
    rw [List.map_cons]
    refine List.nodup_cons.mpr ⟨?_, ?_⟩
    · intro hmem
      rcases List.mem_map.mp hmem with ⟨x, hx, hxu⟩
      have := List.of_mem_filter hx
      simp only [decide_eq_true_eq] at this
      exact this hxu
    · exact List.Nodup.sublist (List.Sublist.map _ (List.filter_sublist _)) h.2

lemma removeEntry_invariant {i : String} {prev : List HistoryEntry}
    (h : historyInvariant prev) : historyInvariant (removeEntry i prev) := by
  constructor
  · exact le_trans (List.length_filter_le _ _) h.1
  · exact List.Nodup.sublist (List.Sublist.map _ (List.filter_sublist _)) h.2

/-- A sample history entry used in concrete witnesses. -/
def sampleEntryA : HistoryEntry :=
  { id := "id1", url := "https://a.example", score := 10, malicious := false,
    timestamp := "t1", labels := [] }

/-- A second sample history entry used in concrete witnesses. -/
def sampleEntryB : HistoryEntry :=
  { id := "id2", url := "https://b.example", score := 80, malicious := true,
    timestamp := "t2", labels := ["feed:phishtank"] }

/-- A sample fresh (non-cached) analysis response used in concrete witnesses. -/
def sampleFreshResponse : AnalysisResponse :=
  { url := "https://a.example", malicious := false, score := 10, confidence := 1/2,
    labels := ["l1", "l2"], evidence := [], analyzers := [],
    analysis_id := some "aid1", timestamp := "t1", processing_time_ms := 120,
    cached := false, version := none }

/-- A sample cached analysis response used in concrete witnesses. -/
def sampleCachedResponse : AnalysisResponse :=
  { url := "https://b.example", malicious := true, score := 80, confidence := 9/10,
    labels := [], evidence := [], analyzers := [],
    analysis_id := none, timestamp := "t2", processing_time_ms := 3,
    cached := true, version := none }

/-- C8: every operation of the browser history store (`addEntry`,
`removeEntry`, `clearHistory`), applied to a history satisfying the
invariant (at most 20 entries, pairwise-distinct URLs), preserves that
invariant, and `addEntry` places the new entry first. -/
theorem historyOps_preserve_invariant (e : HistoryEntry) (i : String)
    (prev : List HistoryEntry) (h : historyInvariant prev) :
    historyInvariant (addEntry e prev) ∧ (addEntry e prev).head? = some e ∧
      historyInvariant (removeEntry i prev) ∧ historyInvariant clearHistory := by
  refine ⟨addEntry_invariant h, rfl, removeEntry_invariant h,
    Nat.zero_le _, List.nodup_nil⟩

/-- C8 witness: the invariant-preservation theorem applied to the concrete
one-entry history `[sampleEntryB]`. -/
theorem historyOps_preserve_invariant_witness :
    historyInvariant [sampleEntryB] ∧
      (historyInvariant (addEntry sampleEntryA [sampleEntryB]) ∧
        (addEntry sampleEntryA [sampleEntryB]).head? = some sampleEntryA ∧
        historyInvariant (removeEntry "id2" [sampleEntryB]) ∧
        historyInvariant clearHistory) :=
  ⟨⟨by decide, by decide⟩,
    historyOps_preserve_invariant sampleEntryA "id2" [sampleEntryB]
      ⟨by decide, by decide⟩⟩

/-- C9: the `Home` page records an analysis in the browser history only when
`cached` is false — after any sequence of analysis outcomes, every history
entry either was already present or comes from a response with
`cached = false`. -/
theorem cached_never_added_to_history (steps : List (Option AnalysisResponse × String))
    (hist : List HistoryEntry) (e : HistoryEntry) (he : e ∈ homeRun steps hist) :
    e ∈ hist ∨ ∃ d fid, (some d, fid) ∈ steps ∧ d.cached = false ∧
      e = mkHistoryEntry d fid := by
  induction steps generalizing hist with
  | nil => exact Or.inl he
  | cons s rest ih =>
    have he' : e ∈ homeRun rest (homeRecord hist s.1 s.2) := he
    rcases ih (homeRecord hist s.1 s.2) he' with h1 | h1
    · cases hs1 : s.1 with
      | none =>
        rw [hs1] at h1
        exact Or.inl h1
      | some d =>
        rw [hs1] at h1
        by_cases hc : d.cached = true
        · simp only [homeRecord, hc, if_true] at h1
          exact Or.inl h1
        · simp only [homeRecord, hc, if_false, Bool.not_eq_true] at h1
          rw [if_neg (by simp [Bool.not_eq_true] at hc; simp [hc])] at h1
          rcases mem_addEntry h1 with h2 | h2
          · refine Or.inr ⟨d, s.2, ?_, Bool.not_eq_true _ ▸ hc, h2⟩
            rw [← hs1]
            exact List.mem_cons_self _ _
          · exact Or.inl h2
    · obtain ⟨d, fid, hmem, hcf, heq⟩ := h1
      exact Or.inr ⟨d, fid, List.mem_cons_of_mem _ hmem, hcf, heq⟩

/-- C9 witness: for the concrete two-step sequence (one fresh response, one
cached response), every resulting history entry is accounted for; applied at
the head entry produced by the fresh response. -/
theorem cached_never_added_to_history_witness :
    sampleFreshResponse.cached = false ∧ sampleCachedResponse.cached = true ∧
      (mkHistoryEntry sampleFreshResponse "fid1" ∈
        homeRun [(some sampleFreshResponse, "fid1"), (some sampleCachedResponse, "fid2")] [] ∧
      (mkHistoryEntry sampleFreshResponse "fid1" ∈ ([] : List HistoryEntry) ∨
        ∃ d fid,
          (some d, fid) ∈ [(some sampleFreshResponse, "fid1"), (some sampleCachedResponse, "fid2")] ∧
            d.cached = false ∧ mkHistoryEntry sampleFreshResponse "fid1" = mkHistoryEntry d fid)) :=
  ⟨rfl, rfl, by decide,
    cached_never_added_to_history
      [(some sampleFreshResponse, "fid1"), (some sampleCachedResponse, "fid2")] []
      (mkHistoryEntry sampleFreshResponse "fid1") (by decide)⟩

/-- C10: `removeEntry id` removes exactly the entries whose `id` matches and
leaves every other entry unchanged, in its original relative order (the
result is a sublist of the original history). -/
theorem removeEntry_frame (i : String) (prev : List HistoryEntry) :
    List.Sublist (removeEntry i prev) prev ∧
      ∀ e : HistoryEntry, e ∈ removeEntry i prev ↔ e ∈ prev ∧ e.id ≠ i := by
  refine ⟨List.filter_sublist _, fun e => ?_⟩
  simp [removeEntry, List.mem_filter]

/-! ## URL validation and normalization

The backend validator/normalizer is not in the shipped sources; the
definitions below are modelled from the spec (§3, §4.1). -/

/-- String prefix test implemented over the character list (the built-in
byte-position implementation is replaced by an equivalent one that the
kernel can evaluate). -/
def strStartsWith (s p : String) : Bool := p.data.isPrefixOf s.data

/-- String suffix test over the character list. -/
def strEndsWith (s p : String) : Bool := p.data.isSuffixOf s.data

/-- Dropping the first `n` characters of a string. -/
def strDrop (s : String) (n : Nat) : String := ⟨s.data.drop n⟩

/-- Dropping the last `n` characters of a string. -/
def strDropRight (s : String) (n : Nat) : String := ⟨s.data.take (s.data.length - n)⟩

/-- The longest prefix of a string whose characters satisfy `p`. -/
def strTakeWhile (p : Char → Bool) (s : String) : String := ⟨s.data.takeWhile p⟩

/-- The remainder of a string after `strTakeWhile`. -/
def strDropWhile (p : Char → Bool) (s : String) : String := ⟨s.data.dropWhile p⟩

/-- Lower-casing a string character by character. -/
def strToLower (s : String) : String := ⟨s.data.map Char.toLower⟩

/-- Modelled from the spec: splitting off the `http://` or `https://` scheme
of a candidate URL; any other prefix yields an empty scheme. -/
def splitScheme (url : String) : String × String :=
  if strStartsWith url "https://" then ("https://", strDrop url 8)
  else if strStartsWith url "http://" then ("http://", strDrop url 7)
  else ("", url)

/-- Modelled from the spec: a request URL is valid when it is syntactically a
URL with scheme http/https (and a nonempty host), checked before the pipeline
runs. -/
def validUrl (url : String) : Bool :=
  let sr := splitScheme url
  sr.1 != "" && strTakeWhile (fun c => c != '/') sr.2 != ""

/-- Modelled from the spec: stripping the scheme's default port from the host
during normalization. -/
def stripDefaultPort (scheme host : String) : String :=
  if scheme == "http://" && strEndsWith host ":80" then strDropRight host 3
  else if scheme == "https://" && strEndsWith host ":443" then strDropRight host 4
  else host

/-- Modelled from the spec: URL normalization — lower-casing the host,
stripping default ports and canonicalizing the trailing slash — whose output
is the cache key material. -/
def normalizeUrl (url : String) : String :=
  let sr := splitScheme url
  let host := stripDefaultPort sr.1 (strToLower (strTakeWhile (fun c => c != '/') sr.2))
  let path0 := strDropWhile (fun c => c != '/') sr.2
  let path := if strEndsWith path0 "/" then strDropRight path0 1 else path0
  sr.1 ++ host ++ path

/-! ## Analysis Orchestrator

Modelled from the spec (§4.1, §4.2): the orchestrator is not in the shipped
sources. An analyzer is a named, weighted procedure whose `analyze` either
produces an `AnalyzerResult` or fails (timeout, network failure, malformed
output), modelled as `Except`. -/

/-- Modelled from the spec (§4.2): the analyzer capability contract. The
orchestrator's analyzer list below is the set of enabled analyzers registered
at startup. -/
structure Analyzer where
  name : String
  weight : ℚ
  analyze : String → Except String AnalyzerResult

/-- Modelled from the spec (§4.1): the error record the orchestrator writes
for a failing analyzer — score 0, confidence 0, error populated. -/
def errorAnalyzerResult (name msg : String) : AnalyzerResult :=
  { name := name, score := 0, confidence := 0, labels := [], evidence := [],
    execution_time_ms := 0, error := some msg }

/-- Modelled from the spec (§4.1): one isolated analyzer invocation; a
failure is recorded as an error result, never propagated. -/
def runAnalyzer (a : Analyzer) (url : String) : AnalyzerResult :=
  match a.analyze url with
  | Except.ok r => r
  | Except.error msg => errorAnalyzerResult a.name msg

/-- Modelled from the spec (§4.1): the fan-out collects exactly one result
per enabled analyzer, in registration order. -/
def orchestratorFanOut (analyzers : List Analyzer) (url : String) : List AnalyzerResult :=
  analyzers.map fun a => runAnalyzer a url

/-! ## Scorer

Modelled from the spec (§4.3, §6): weighted sum over non-error results, a
consensus adjustment, threshold bucketing and the feed-lookup short-circuit. -/

/-- Modelled from the spec (§6): the configured low/medium/high score
thresholds. -/
structure Thresholds where
  low : ℚ
  medium : ℚ
  high : ℚ
deriving DecidableEq

/-- Modelled from the spec (§4.3): one scoring configuration — the
analyzer-name → weight mapping, the threshold triple, the bounded consensus
bonus, and the neutral score threshold used for direction agreement. -/
structure ScoringConfig where
  weights : String → ℚ
  thresholds : Thresholds
  consensusBonus : ℚ
  neutral : ℚ

/-- The three risk buckets of the spec's scorer contract. -/
inductive RiskLevel
  | low
  | medium
  | high
deriving DecidableEq

/-- Modelled from the spec (§4.3): analyzers whose result is an error are
excluded from the weighted sum. -/
def okResults (results : List AnalyzerResult) : List AnalyzerResult :=
  results.filter fun r => r.error = none

/-- The weighted sum over an already-filtered list of non-error results. -/
def weightedSumOn (w : String → ℚ) (ok : List AnalyzerResult) : ℚ :=
  (ok.map fun r => w r.name * r.score).sum

/-- Modelled from the spec (§4.3): the weighted sum of the non-error
analyzers' scores under the configured weights. -/
def weightedSum (w : String → ℚ) (results : List AnalyzerResult) : ℚ :=
  weightedSumOn w (okResults results)

/-- The consensus adjustment over an already-filtered list of non-error
results: with no surviving results the base score is unchanged; when all
agree on direction against the neutral threshold the bounded bonus is
applied in that direction. -/
def consensusAdjustOn (cfg : ScoringConfig) (ok : List AnalyzerResult) (base : ℚ) : ℚ :=
  match ok with
  | [] => base
  | x :: xs =>
    if (x :: xs).all (fun r => decide (cfg.neutral < r.score)) then
      base + cfg.consensusBonus
    else if (x :: xs).all (fun r => decide (r.score < cfg.neutral)) then
      base - cfg.consensusBonus
    else base

/-- Modelled from the spec (§4.3): the consensus adjustment — when all
non-error analyzers agree on direction against the neutral threshold, the
aggregate is nudged further in that direction by the bounded bonus. -/
def consensusAdjust (cfg : ScoringConfig) (results : List AnalyzerResult) (base : ℚ) : ℚ :=
  consensusAdjustOn cfg (okResults results) base

/-- Modelled from the spec (§4.3): the aggregate score — weighted sum
followed by the consensus adjustment. -/
def aggregateScore (cfg : ScoringConfig) (results : List AnalyzerResult) : ℚ :=
  consensusAdjust cfg results (weightedSum cfg.weights results)

/-- Modelled from the spec (§4.3, §7): aggregate confidence — the mean of
the per-analyzer confidences where error results contribute zero, so analyzer
errors lower the aggregate confidence. -/
def aggregateConfidence (results : List AnalyzerResult) : ℚ :=
  if results.isEmpty then 0
  else ((okResults results).map fun r => r.confidence).sum / (results.length : ℚ)

/-- Modelled from the spec (§4.3): bucketing the final score against the
configured thresholds. -/
def riskLevelOf (t : Thresholds) (score : ℚ) : RiskLevel :=
  if t.high ≤ score then RiskLevel.high
  else if t.medium ≤ score then RiskLevel.medium
  else RiskLevel.low

/-! ## Feed lookup and the malicious short-circuit

Modelled from the spec (§4.2, §4.5): the Indicator Store and the feed-lookup
analyzer. -/

/-- Modelled from the spec (§3): one normalized threat indicator. -/
structure Indicator where
  type : String
  value : String
  threat_type : String
  severity : String
  source : String
deriving DecidableEq

/-- The well-known name of the feed-lookup analyzer in this model. -/
def feedAnalyzerName : String := "feed_lookup"

/-- The label the feed-lookup analyzer emits on a high-severity match from a
trusted source; the scorer's short-circuit keys on it. -/
def highSeverityFeedLabel : String := "feed_high_severity_match"

/-- The host part of a URL (scheme and path stripped). -/
def hostOf (url : String) : String :=
  strTakeWhile (fun c => c != '/') (splitScheme url).2

/-- Modelled from the spec (§4.5): an indicator matches a URL by exact match
on the full value, exact match on the domain, or domain-suffix match. -/
def indicatorMatches (url : String) (ind : Indicator) : Bool :=
  ind.value == url || ind.value == hostOf url ||
    strEndsWith (hostOf url) ("." ++ ind.value)

/-- Modelled from the spec (§4.5): the Indicator Store lookup returning all
indicators matching a URL. -/
def lookupIndicators (store : List Indicator) (url : String) : List Indicator :=
  store.filter (indicatorMatches url)

/-- Modelled from the spec (§4.2): whether an indicator is high-severity and
comes from a trusted source. -/
def isHighSeverityTrusted (trusted : List String) (ind : Indicator) : Bool :=
  (ind.severity == "high" || ind.severity == "critical") && trusted.contains ind.source

/-- Modelled from the spec (§4.2): the feed-lookup analyzer — near-maximal
risk and the short-circuit label on a high-severity trusted match, elevated
risk on any other match, neutral otherwise. -/
def feedLookupAnalyze (trusted : List String) (store : List Indicator)
    (url : String) : AnalyzerResult :=
  let found := lookupIndicators store url
  let hot := found.any (isHighSeverityTrusted trusted)
  { name := feedAnalyzerName
    score := if hot then 100 else if found.isEmpty then 0 else 60
    confidence := if found.isEmpty then 3/10 else 95/100
    labels := (if hot then [highSeverityFeedLabel] else []) ++
      found.map fun i => "feed:" ++ i.source
    evidence := found.map fun i => ("indicator", i.value)
    execution_time_ms := 0
    error := none }

/-- Modelled from the spec (§4.2, §4.3): whether the run's results contain a
feed-lookup result carrying the high-severity short-circuit label. -/
def feedShortCircuit (results : List AnalyzerResult) : Bool :=
  results.any fun r => r.name == feedAnalyzerName &&
    r.labels.contains highSeverityFeedLabel

/-- Modelled from the spec (§4.3): the `malicious` boolean — true at or above
the medium threshold, overridden to true by the feed-lookup short-circuit. -/
def maliciousOf (cfg : ScoringConfig) (results : List AnalyzerResult) (score : ℚ) : Bool :=
  feedShortCircuit results || decide (cfg.thresholds.medium ≤ score)

/-- The scorer's output record, per the spec's §4.3 contract. -/
structure ScorerOutput where
  score : ℚ
  confidence : ℚ
  labels : List String
  riskLevel : RiskLevel
  malicious : Bool
deriving DecidableEq

/-- Modelled from the spec (§4.3): the scorer — aggregate score, aggregate
confidence, union of labels, risk bucket and the malicious boolean. -/
def scorerRun (cfg : ScoringConfig) (results : List AnalyzerResult) : ScorerOutput :=
  let s := aggregateScore cfg results
  { score := s
    confidence := aggregateConfidence results
    labels := (results.map fun r => r.labels).flatten
    riskLevel := riskLevelOf cfg.thresholds s
    malicious := maliciousOf cfg results s }

/-- Modelled from the spec (§2): one Orchestrator+Scorer pipeline execution
on an already-validated URL, assembled into the external `AnalysisResponse`
with `cached = false`. -/
def runPipeline (cfg : ScoringConfig) (analyzers : List Analyzer)
    (url ts : String) : AnalysisResponse :=
  let results := orchestratorFanOut analyzers (normalizeUrl url)
  let out := scorerRun cfg results
  { url := url, malicious := out.malicious, score := out.score,
    confidence := out.confidence, labels := out.labels,
    evidence := (results.map fun r => r.evidence).flatten, analyzers := results,
    analysis_id := none, timestamp := ts, processing_time_ms := 0,
    cached := false, version := none }

/-- Modelled from the spec (§7): the fixed, coarse client error returned for
an invalid URL — a constant, so it can carry no internal detail. -/
def invalidUrlError : ApiErrorBody :=
  { code := 400, message := "Invalid URL: must be an http(s) URL", type := "validation_error" }

/-- Modelled from the spec (§4.1): `AnalysisOrchestrator.run` — fails only if
the URL fails validation (rejected before any analyzer runs), otherwise one
full pipeline execution. -/
def AnalysisOrchestrator.run (cfg : ScoringConfig) (analyzers : List Analyzer)
    (url ts : String) : Except ApiErrorBody AnalysisResponse :=
  if validUrl url then Except.ok (runPipeline cfg analyzers url ts)
  else Except.error invalidUrlError

/-- Modelled from the spec (§6, §7): the analyze request surface, instrumented
with the number of analyzer invocations performed (each enabled analyzer runs
exactly once on the valid path, none on the invalid path). -/
def analyzeEndpoint (cfg : ScoringConfig) (analyzers : List Analyzer)
    (url ts : String) : Except ApiErrorBody AnalysisResponse × Nat :=
  if validUrl url then (Except.ok (runPipeline cfg analyzers url ts), analyzers.length)
  else (Except.error invalidUrlError, 0)

/-! ## Frontend rendering and error surfacing -/

/-- The four color buckets of `getScoreColor` in
`src/components/SearchResults.tsx`. -/
inductive ScoreColor
  | red
  | yellow
  | green
  | blue
deriving DecidableEq

/-- The `getScoreColor` classifier from `src/components/SearchResults.tsx`:
hardcoded cut-offs 70 and 40, with a separate bucket for negative scores. -/
def getScoreColor (score : ℚ) : ScoreColor :=
  if 70 ≤ score then ScoreColor.red
  else if 40 ≤ score then ScoreColor.yellow
  else if 0 ≤ score then ScoreColor.green
  else ScoreColor.blue

/-- The cut-offs the frontend hardcodes (40 and 70) viewed as a threshold
triple. -/
def frontendThresholds : Thresholds := { low := 0, medium := 40, high := 70 }

/-- The stats summary of `src/components/History.tsx`: counts of entries with
score ≥ 70, with 40 ≤ score < 70, and with score < 40. -/
def historyStats (entries : List HistoryEntry) : Nat × Nat × Nat :=
  ((entries.filter fun e => decide (70 ≤ e.score)).length,
   (entries.filter fun e => decide (40 ≤ e.score) && decide (e.score < 70)).length,
   (entries.filter fun e => decide (e.score < 40)).length)

/-- The possible outcomes of the `fetch` in `src/hooks/useAnalyze.ts`. -/
inductive FetchOutcome
  | success (data : AnalysisResponse)
  | httpError (e : ApiErrorBody)
  | thrown (msg : String)

/-- The state of the `useAnalyze` hook (`UseAnalyzeState` in
`src/hooks/useAnalyze.ts`). -/
structure UseAnalyzeState where
  data : Option AnalysisResponse
  loading : Bool
  error : Option String
deriving DecidableEq

/-- The settled state of `analyze` in `src/hooks/useAnalyze.ts`: a non-ok
response surfaces only `errorData.error.message` (falling back to a fixed
string when empty), and a thrown error surfaces its message. -/
def analyzeSettle : FetchOutcome → UseAnalyzeState
  | FetchOutcome.success d => { data := some d, loading := false, error := none }
  | FetchOutcome.httpError e =>
      { data := none, loading := false,
        error := some (if e.message = "" then "Error en el análisis" else e.message) }
  | FetchOutcome.thrown msg => { data := none, loading := false, error := some msg }

/-! ## Concrete sample objects for witnesses -/

/-- A sample scoring configuration with unit weights and the conventional
40/70 thresholds. -/
def sampleConfig : ScoringConfig :=
  { weights := fun _ => 1, thresholds := { low := 20, medium := 40, high := 70 },
    consensusBonus := 5, neutral := 0 }

/-- A sample analyzer that always succeeds. -/
def okAnalyzer : Analyzer :=
  { name := "heuristics", weight := 1,
    analyze := fun _ => Except.ok
      { name := "heuristics", score := 10, confidence := 1/2, labels := ["l"],
        evidence := [], execution_time_ms := 1, error := none } }

/-- A sample analyzer that always fails. -/
def failingAnalyzer : Analyzer :=
  { name := "dns", weight := 1, analyze := fun _ => Except.error "timeout" }

/-! ## Claim theorems for the spec-modelled pipeline -/

/-- C2: for every valid URL, `AnalysisOrchestrator.run` returns a result
with exactly one `AnalyzerResult` per enabled analyzer, in order, even when
every analyzer fails — a failing analyzer contributes a result with score 0,
confidence 0 and the error populated, rather than being dropped. -/
theorem orchestrator_one_result_per_analyzer (cfg : ScoringConfig)
    (analyzers : List Analyzer) (url ts : String) (h : validUrl url = true) :
    ∃ res, AnalysisOrchestrator.run cfg analyzers url ts = Except.ok res ∧
      res.analyzers.length = analyzers.length ∧
      List.Forall₂ (fun (a : Analyzer) (r : AnalyzerResult) =>
        a.analyze (normalizeUrl url) = Except.ok r ∨
          ∃ msg, a.analyze (normalizeUrl url) = Except.error msg ∧
            r.name = a.name ∧ r.score = 0 ∧ r.confidence = 0 ∧ r.error = some msg)
        analyzers res.analyzers := by
  refine ⟨runPipeline cfg analyzers url ts, ?_, ?_, ?_⟩
  · simp [AnalysisOrchestrator.run, h]
  · simp [runPipeline, orchestratorFanOut]
  · show List.Forall₂ _ analyzers
      (analyzers.map fun a => runAnalyzer a (normalizeUrl url))
    rw [List.forall₂_map_right_iff]
    refine List.forall₂_same.mpr fun a _ => ?_
    cases hres : a.analyze (normalizeUrl url) with
    | ok r =>
      left
      simp only [runAnalyzer, hres]
    | error msg =>
      right
      exact ⟨msg, rfl, by simp [runAnalyzer, hres, errorAnalyzerResult]⟩

/-- C2 witness: the orchestrator theorem at a concrete valid URL with one
succeeding and one failing analyzer. -/
theorem orchestrator_one_result_per_analyzer_witness :
    validUrl "https://Example.com/login" = true ∧
      ∃ res, AnalysisOrchestrator.run sampleConfig [okAnalyzer, failingAnalyzer]
          "https://Example.com/login" "t0" = Except.ok res ∧
        res.analyzers.length = [okAnalyzer, failingAnalyzer].length ∧
        List.Forall₂ (fun (a : Analyzer) (r : AnalyzerResult) =>
          a.analyze (normalizeUrl "https://Example.com/login") = Except.ok r ∨
            ∃ msg, a.analyze (normalizeUrl "https://Example.com/login") = Except.error msg ∧
              r.name = a.name ∧ r.score = 0 ∧ r.confidence = 0 ∧ r.error = some msg)
          [okAnalyzer, failingAnalyzer] res.analyzers :=
  ⟨by decide, orchestrator_one_result_per_analyzer sampleConfig [okAnalyzer, failingAnalyzer]
    "https://Example.com/login" "t0" (by decide)⟩

lemma consensusAdjustOn_le (cfg : ScoringConfig) {ok1 ok2 : List AnalyzerResult}
    {b1 b2 : ℚ} (hbonus : 0 ≤ cfg.consensusBonus) (hbase : b1 ≤ b2)
    (hne1 : ok1 ≠ []) (hne2 : ok2 ≠ [])
    (hup : ok1.all (fun x => decide (cfg.neutral < x.score)) = true →
      ok2.all (fun x => decide (cfg.neutral < x.score)) = true)
    (hdown : ok2.all (fun x => decide (x.score < cfg.neutral)) = true →
      ok1.all (fun x => decide (x.score < cfg.neutral)) = true) :
    consensusAdjustOn cfg ok1 b1 ≤ consensusAdjustOn cfg ok2 b2 := by
  obtain ⟨x1, xs1, rfl⟩ := List.exists_cons_of_ne_nil hne1
  obtain ⟨x2, xs2, rfl⟩ := List.exists_cons_of_ne_nil hne2
  simp only [consensusAdjustOn]
  by_cases hu1 : (x1 :: xs1).all (fun x => decide (cfg.neutral < x.score)) = true
  · rw [if_pos hu1, if_pos (hup hu1)]
    linarith
  · rw [if_neg hu1]
    by_cases hd1 : (x1 :: xs1).all (fun x => decide (x.score < cfg.neutral)) = true
    · rw [if_pos hd1]
      by_cases hu2 : (x2 :: xs2).all (fun x => decide (cfg.neutral < x.score)) = true
      · rw [if_pos hu2]; linarith
      · rw [if_neg hu2]
        by_cases hd2 : (x2 :: xs2).all (fun x => decide (x.score < cfg.neutral)) = true
        · rw [if_pos hd2]; linarith
        · rw [if_neg hd2]; linarith
    · rw [if_neg hd1]
      by_cases hu2 : (x2 :: xs2).all (fun x => decide (cfg.neutral < x.score)) = true
      · rw [if_pos hu2]; linarith
      · rw [if_neg hu2]
        by_cases hd2 : (x2 :: xs2).all (fun x => decide (x.score < cfg.neutral)) = true
        · exact absurd (hdown hd2) hd1
        · rw [if_neg hd2]; linarith

/-- C4: for a fixed weight configuration with nonnegative weights (and the
bounded, nonnegative consensus bonus), increasing one analyzer's risk score
while holding every other result fixed never decreases the aggregate score
produced by the Scorer, including after the consensus adjustment. -/
theorem scorer_monotone (cfg : ScoringConfig) (hw : ∀ n, 0 ≤ cfg.weights n)
    (hb : 0 ≤ cfg.consensusBonus) (l1 l2 : List AnalyzerResult)
    (r : AnalyzerResult) (s' : ℚ) (hs : r.score ≤ s') :
    aggregateScore cfg (l1 ++ r :: l2) ≤
      aggregateScore cfg (l1 ++ { r with score := s' } :: l2) := by
  by_cases he : r.error = none
  · have hok : okResults (l1 ++ r :: l2) = okResults l1 ++ r :: okResults l2 := by
      simp [okResults, List.filter_append, List.filter_cons, he]
    have hok' : okResults (l1 ++ { r with score := s' } :: l2) =
        okResults l1 ++ { r with score := s' } :: okResults l2 := by
      simp [okResults, List.filter_append, List.filter_cons, he]
    show consensusAdjustOn cfg _ (weightedSumOn cfg.weights _) ≤
      consensusAdjustOn cfg _ (weightedSumOn cfg.weights _)
    rw [hok, hok']
    have hbase : weightedSumOn cfg.weights (okResults l1 ++ r :: okResults l2) ≤
        weightedSumOn cfg.weights (okResults l1 ++ { r with score := s' } :: okResults l2) := by
      unfold weightedSumOn
      simp only [List.map_append, List.map_cons, List.sum_append, List.sum_cons]
      have := mul_le_mul_of_nonneg_left hs (hw r.name)
      linarith
    refine consensusAdjustOn_le cfg hb hbase (by simp) (by simp) ?_ ?_
    · simp only [List.all_append, List.all_cons, Bool.and_eq_true, decide_eq_true_eq]
      exact fun ⟨ha, hr, hbb⟩ => ⟨ha, lt_of_lt_of_le hr hs, hbb⟩
    · simp only [List.all_append, List.all_cons, Bool.and_eq_true, decide_eq_true_eq]
      exact fun ⟨ha, hr, hbb⟩ => ⟨ha, lt_of_le_of_lt hs hr, hbb⟩
  · have hok : okResults (l1 ++ r :: l2) = okResults (l1 ++ { r with score := s' } :: l2) := by
      simp [okResults, List.filter_append, List.filter_cons, he]
    show consensusAdjustOn cfg _ (weightedSumOn cfg.weights _) ≤
      consensusAdjustOn cfg _ (weightedSumOn cfg.weights _)
    rw [hok]

/-- A scoring configuration with a negative weight, exhibiting the failure of
unconditional monotonicity. -/
def negWeightConfig : ScoringConfig :=
  { weights := fun _ => -1, thresholds := { low := 20, medium := 40, high := 70 },
    consensusBonus := 5, neutral := 0 }

/-- A sample benign analyzer result used in concrete witnesses. -/
def sampleResultLow : AnalyzerResult :=
  { name := "heuristics", score := 10, confidence := 1/2, labels := [],
    evidence := [], execution_time_ms := 1, error := none }

/-- A sample risky analyzer result used in concrete witnesses. -/
def sampleResultHigh : AnalyzerResult :=
  { name := "tls", score := 80, confidence := 9/10, labels := ["self_signed"],
    evidence := [], execution_time_ms := 2, error := none }

/-- C4 counterexample: the claim fails for an arbitrary fixed weight
configuration — under a configuration whose weight for the analyzer is
negative, raising that analyzer's score from 10 to 50 strictly decreases the
aggregate score. -/
theorem scorer_monotone_counterexample :
    sampleResultLow.score ≤ 50 ∧
      ¬ aggregateScore negWeightConfig [sampleResultLow] ≤
          aggregateScore negWeightConfig [{ sampleResultLow with score := 50 }] := by
  constructor
  · norm_num [sampleResultLow]
  · norm_num [aggregateScore, consensusAdjust, consensusAdjustOn, weightedSum,
      weightedSumOn, okResults, negWeightConfig, sampleResultLow, List.filter]

/-- C4 witness: monotonicity applied at a concrete configuration, raising
the heuristics score from 10 to 50 next to a fixed TLS result. -/
theorem scorer_monotone_witness :
    (∀ n, 0 ≤ sampleConfig.weights n) ∧ 0 ≤ sampleConfig.consensusBonus ∧
      sampleResultLow.score ≤ 50 ∧
      aggregateScore sampleConfig ([] ++ sampleResultLow :: [sampleResultHigh]) ≤
        aggregateScore sampleConfig ([] ++ { sampleResultLow with score := 50 } :: [sampleResultHigh]) :=
  ⟨fun _ => zero_le_one, by norm_num [sampleConfig], by norm_num [sampleResultLow],
    scorer_monotone sampleConfig (fun _ => zero_le_one) (by norm_num [sampleConfig])
      [] [sampleResultHigh] sampleResultLow 50 (by norm_num [sampleResultLow])⟩

/-- C5: when the feed-lookup analyzer matched a high-severity indicator from
a trusted source, the scorer's verdict has `malicious = true`, regardless of
every other analyzer's result. -/
theorem feed_hit_forces_malicious (cfg : ScoringConfig) (trusted : List String)
    (store : List Indicator) (url : String) (results : List AnalyzerResult)
    (ind : Indicator) (hind : ind ∈ store) (hmatch : indicatorMatches url ind = true)
    (hsev : isHighSeverityTrusted trusted ind = true)
    (hmem : feedLookupAnalyze trusted store url ∈ results) :
    (scorerRun cfg results).malicious = true := by
  have hfound : ind ∈ lookupIndicators store url := List.mem_filter.mpr ⟨hind, hmatch⟩
  have hhot : (lookupIndicators store url).any (isHighSeverityTrusted trusted) = true :=
    List.any_eq_true.mpr ⟨ind, hfound, hsev⟩
  have hflag : ((feedLookupAnalyze trusted store url).name == feedAnalyzerName &&
      (feedLookupAnalyze trusted store url).labels.contains highSeverityFeedLabel) = true := by
    simp [feedLookupAnalyze, hhot]
  have hsc : feedShortCircuit results = true :=
    List.any_eq_true.mpr ⟨feedLookupAnalyze trusted store url, hmem, hflag⟩
  simp [scorerRun, maliciousOf, hsc]

/-- A sample high-severity indicator from a trusted feed, used in witnesses. -/
def sampleIndicator : Indicator :=
  { type := "domain", value := "evil.example", threat_type := "phishing",
    severity := "high", source := "phishtank" }

/-- C5 witness: the short-circuit theorem at a concrete store and URL, with
an unrelated benign analyzer result alongside the feed result. -/
theorem feed_hit_forces_malicious_witness :
    sampleIndicator ∈ [sampleIndicator] ∧
      indicatorMatches "https://evil.example/login" sampleIndicator = true ∧
      isHighSeverityTrusted ["phishtank"] sampleIndicator = true ∧
      (scorerRun sampleConfig
        [feedLookupAnalyze ["phishtank"] [sampleIndicator] "https://evil.example/login",
          sampleResultLow]).malicious = true :=
  ⟨List.mem_singleton.mpr rfl, by decide, by decide,
    feed_hit_forces_malicious sampleConfig ["phishtank"] [sampleIndicator]
      "https://evil.example/login"
      [feedLookupAnalyze ["phishtank"] [sampleIndicator] "https://evil.example/login",
        sampleResultLow]
      sampleIndicator (List.mem_singleton.mpr rfl) (by decide) (by decide)
      (List.mem_cons_self _ _)⟩

/-- C6: the scorer buckets the final score against the configured
low/medium/high thresholds to produce the risk level, and — absent the
feed-lookup short-circuit — the `malicious` boolean is true exactly when the
score is at or above the medium threshold; the frontend rendering instead
classifies with hardcoded cut-offs 40 and 70, which agree with the threshold
triple (40, 70) bucket for bucket. -/
theorem score_bucketing (cfg : ScoringConfig) (results : List AnalyzerResult)
    (hmh : cfg.thresholds.medium ≤ cfg.thresholds.high) :
    ((scorerRun cfg results).riskLevel = RiskLevel.high ↔
      cfg.thresholds.high ≤ (scorerRun cfg results).score) ∧
    ((scorerRun cfg results).riskLevel = RiskLevel.medium ↔
      (cfg.thresholds.medium ≤ (scorerRun cfg results).score ∧
        (scorerRun cfg results).score < cfg.thresholds.high)) ∧
    ((scorerRun cfg results).riskLevel = RiskLevel.low ↔
      (scorerRun cfg results).score < cfg.thresholds.medium) ∧
    (feedShortCircuit results = false →
      ((scorerRun cfg results).malicious = true ↔
        cfg.thresholds.medium ≤ (scorerRun cfg results).score)) ∧
    (∀ s : ℚ,
      (getScoreColor s = ScoreColor.red ↔ riskLevelOf frontendThresholds s = RiskLevel.high) ∧
      (getScoreColor s = ScoreColor.yellow ↔ riskLevelOf frontendThresholds s = RiskLevel.medium) ∧
      ((getScoreColor s = ScoreColor.green ∨ getScoreColor s = ScoreColor.blue) ↔
        riskLevelOf frontendThresholds s = RiskLevel.low)) := by
  have hsc : (scorerRun cfg results).score = aggregateScore cfg results := rfl
  have hrl : (scorerRun cfg results).riskLevel =
      riskLevelOf cfg.thresholds (aggregateScore cfg results) := rfl
  refine ⟨?_, ?_, ?_, ?_, ?_⟩
  · rw [hrl, hsc]
    unfold riskLevelOf
    by_cases h1 : cfg.thresholds.high ≤ aggregateScore cfg results
    · simp [h1]
    · by_cases h2 : cfg.thresholds.medium ≤ aggregateScore cfg results <;> simp [h1, h2]
  · rw [hrl, hsc]
    unfold riskLevelOf
    by_cases h1 : cfg.thresholds.high ≤ aggregateScore cfg results
    · simp only [if_pos h1]
      simp only [iff_iff_implies_and_implies]
      constructor
      · intro h; cases h
      · intro h; exact absurd h1 (not_le.mpr h.2)
    · by_cases h2 : cfg.thresholds.medium ≤ aggregateScore cfg results <;>
        simp [h1, h2, not_le.mp h1]
  · rw [hrl, hsc]
    unfold riskLevelOf
    by_cases h1 : cfg.thresholds.high ≤ aggregateScore cfg results
    · have : ¬ aggregateScore cfg results < cfg.thresholds.medium :=
        not_lt.mpr (le_trans hmh h1)
      simp [h1, this]
    · by_cases h2 : cfg.thresholds.medium ≤ aggregateScore cfg results
      · simp [h1, h2, not_lt.mpr h2]
      · simp [h1, h2, not_le.mp h2]
  · intro hno
    show maliciousOf cfg results (aggregateScore cfg results) = true ↔ _
    rw [hsc]
    simp [maliciousOf, hno]
  · intro s
    unfold getScoreColor riskLevelOf frontendThresholds
    by_cases h1 : (70 : ℚ) ≤ s
    · have h0 : (0 : ℚ) ≤ s := le_trans (by norm_num) h1
      have h4 : (40 : ℚ) ≤ s := le_trans (by norm_num) h1
      simp [h1, h0, h4]
    · by_cases h2 : (40 : ℚ) ≤ s
      · have h0 : (0 : ℚ) ≤ s := le_trans (by norm_num) h2
        simp [h1, h2, h0]
      · by_cases h3 : (0 : ℚ) ≤ s <;> simp [h1, h2, h3]

/-- C6 witness: the bucketing theorem at the sample configuration (whose
medium threshold 40 is below its high threshold 70) and an empty result
list. -/
theorem score_bucketing_witness :
    sampleConfig.thresholds.medium ≤ sampleConfig.thresholds.high ∧
      (((scorerRun sampleConfig []).riskLevel = RiskLevel.high ↔
        sampleConfig.thresholds.high ≤ (scorerRun sampleConfig []).score) ∧
      ((scorerRun sampleConfig []).riskLevel = RiskLevel.medium ↔
        (sampleConfig.thresholds.medium ≤ (scorerRun sampleConfig []).score ∧
          (scorerRun sampleConfig []).score < sampleConfig.thresholds.high)) ∧
      ((scorerRun sampleConfig []).riskLevel = RiskLevel.low ↔
        (scorerRun sampleConfig []).score < sampleConfig.thresholds.medium) ∧
      (feedShortCircuit [] = false →
        ((scorerRun sampleConfig []).malicious = true ↔
          sampleConfig.thresholds.medium ≤ (scorerRun sampleConfig []).score)) ∧
      (∀ s : ℚ,
        (getScoreColor s = ScoreColor.red ↔ riskLevelOf frontendThresholds s = RiskLevel.high) ∧
        (getScoreColor s = ScoreColor.yellow ↔ riskLevelOf frontendThresholds s = RiskLevel.medium) ∧
        ((getScoreColor s = ScoreColor.green ∨ getScoreColor s = ScoreColor.blue) ↔
          riskLevelOf frontendThresholds s = RiskLevel.low))) :=
  ⟨by norm_num [sampleConfig], score_bucketing sampleConfig [] (by norm_num [sampleConfig])⟩

/-- C7: an analyze request with an invalid URL fails as a client error
before any analyzer runs (zero analyzer invocations), the surfaced error is
the fixed coarse structured body (code 400, validation type), and the
frontend surfaces only its message field to the user. -/
theorem invalid_url_client_error (cfg : ScoringConfig) (analyzers : List Analyzer)
    (url ts : String) (h : validUrl url = false) :
    analyzeEndpoint cfg analyzers url ts = (Except.error invalidUrlError, 0) ∧
      invalidUrlError.code = 400 ∧ invalidUrlError.type = "validation_error" ∧
      analyzeSettle (FetchOutcome.httpError invalidUrlError) =
        { data := none, loading := false, error := some invalidUrlError.message } := by
  refine ⟨?_, rfl, rfl, ?_⟩
  · simp [analyzeEndpoint, h]
  · simp [analyzeSettle, invalidUrlError]

/-- C7 witness: the client-error theorem at the concrete unparseable URL
string `notaurl`. -/
theorem invalid_url_client_error_witness :
    validUrl "notaurl" = false ∧
      (analyzeEndpoint sampleConfig [okAnalyzer] "notaurl" "t0" =
          (Except.error invalidUrlError, 0) ∧
        invalidUrlError.code = 400 ∧ invalidUrlError.type = "validation_error" ∧
        analyzeSettle (FetchOutcome.httpError invalidUrlError) =
          { data := none, loading := false, error := some invalidUrlError.message }) :=
  ⟨by decide, invalid_url_client_error sampleConfig [okAnalyzer] "notaurl" "t0" (by decide)⟩

/-! ## Verdict cache

Modelled from the spec (§3, §4.4): the cache is keyed by a fingerprint of
the normalized URL (the hash is modelled by the normalized URL itself, a
collision-free stand-in), stores the compact score/confidence/labels subset
of the result together with the verdict boolean, and treats expiry lazily at
lookup time. -/

/-- Modelled from the spec (§3): a cache entry. -/
structure Verdict where
  fingerprint : String
  score : ℚ
  confidence : ℚ
  labels : List String
  malicious : Bool
  created_at : ℚ
  expires_at : ℚ
  hit_count : Nat
deriving DecidableEq

/-- Modelled from the spec (§4.4): the verdict-cache state, an association of
fingerprints to verdicts. -/
structure CacheState where
  entries : List (String × Verdict)
deriving DecidableEq

/-- Modelled from the spec (§4.4): the cache key of a URL. -/
def fingerprintOf (url : String) : String := normalizeUrl url

/-- Modelled from the spec (§4.4): the default TTL of 24 hours, in
milliseconds. -/
def DEFAULT_TTL_MS : ℚ := 24 * 60 * 60 * 1000

/-- Modelled from the spec (§4.4): lazy-expiry lookup — an expired entry is
treated as a miss. -/
def cacheLookup (st : CacheState) (key : String) (now : ℚ) : Option Verdict :=
  match st.entries.lookup key with
  | some v => if now < v.expires_at then some v else none
  | none => none

/-- Modelled from the spec (§4.4): the response served on a cache hit —
cached flag set, verdict fields restored, and no per-analyzer detail. -/
def cachedResponse (url : String) (v : Verdict) (ts : String) : AnalysisResponse :=
  { url := url, malicious := v.malicious, score := v.score,
    confidence := v.confidence, labels := v.labels, evidence := [],
    analyzers := [], analysis_id := none, timestamp := ts,
    processing_time_ms := 0, cached := true, version := none }

/-- Modelled from the spec (§4.4): `getOrCompute` — on a (non-expired) hit,
serve the verdict with `cached = true` and bump the hit counter; on a miss,
run the pipeline, store a verdict expiring one TTL later, and serve the
fresh result with `cached = false`. -/
def getOrCompute (cfg : ScoringConfig) (analyzers : List Analyzer)
    (st : CacheState) (url : String) (now : ℚ) (ts : String) :
    Except ApiErrorBody (AnalysisResponse × CacheState) :=
  if validUrl url then
    match cacheLookup st (fingerprintOf url) now with
    | some v =>
      Except.ok (cachedResponse url v ts,
        { entries := st.entries.map fun p =>
            if p.1 == fingerprintOf url
            then (p.1, { v with hit_count := v.hit_count + 1 }) else p })
    | none =>
      let res := runPipeline cfg analyzers url ts
      Except.ok (res,
        { entries := (fingerprintOf url,
            { fingerprint := fingerprintOf url, score := res.score,
              confidence := res.confidence, labels := res.labels,
              malicious := res.malicious, created_at := now,
              expires_at := now + DEFAULT_TTL_MS, hit_count := 0 }) ::
          st.entries.filter fun p => p.1 != fingerprintOf url })
  else Except.error invalidUrlError

/-- The verdict written by a cache miss at time `now`. -/
def freshVerdict (cfg : ScoringConfig) (analyzers : List Analyzer)
    (url ts : String) (now : ℚ) : Verdict :=
  { fingerprint := fingerprintOf url,
    score := (runPipeline cfg analyzers url ts).score,
    confidence := (runPipeline cfg analyzers url ts).confidence,
    labels := (runPipeline cfg analyzers url ts).labels,
    malicious := (runPipeline cfg analyzers url ts).malicious,
    created_at := now, expires_at := now + DEFAULT_TTL_MS, hit_count := 0 }

lemma getOrCompute_miss (cfg : ScoringConfig) (analyzers : List Analyzer)
    (st : CacheState) (url : String) (now : ℚ) (ts : String)
    (hv : validUrl url = true)
    (hm : cacheLookup st (fingerprintOf url) now = none) :
    getOrCompute cfg analyzers st url now ts =
      Except.ok (runPipeline cfg analyzers url ts,
        { entries := (fingerprintOf url, freshVerdict cfg analyzers url ts now) ::
            st.entries.filter fun p => p.1 != fingerprintOf url }) := by
  simp [getOrCompute, hv, hm, freshVerdict]

lemma getOrCompute_hit (cfg : ScoringConfig) (analyzers : List Analyzer)
    (st : CacheState) (url : String) (now : ℚ) (ts : String) (v : Verdict)
    (hv : validUrl url = true)
    (hm : cacheLookup st (fingerprintOf url) now = some v) :
    getOrCompute cfg analyzers st url now ts =
      Except.ok (cachedResponse url v ts,
        { entries := st.entries.map fun p =>
            if p.1 == fingerprintOf url
            then (p.1, { v with hit_count := v.hit_count + 1 }) else p }) := by
  simp [getOrCompute, hv, hm]

/-- C3: after a successful fresh analysis at time `t0` (cache miss), a second
request for the same URL at any time `t1` within the TTL window is served
from the cache: `cached = true`, the same score and confidence as the
original response, and an empty per-analyzer detail list. -/
theorem cache_hit_within_ttl (cfg : ScoringConfig) (analyzers : List Analyzer)
    (st : CacheState) (url : String) (t0 t1 : ℚ) (ts0 ts1 : String)
    (hv : validUrl url = true)
    (hmiss : cacheLookup st (fingerprintOf url) t0 = none)
    (httl : t1 < t0 + DEFAULT_TTL_MS) :
    ∃ r1 st1 r2 st2,
      getOrCompute cfg analyzers st url t0 ts0 = Except.ok (r1, st1) ∧
      getOrCompute cfg analyzers st1 url t1 ts1 = Except.ok (r2, st2) ∧
      r1.cached = false ∧ r2.cached = true ∧
      r2.score = r1.score ∧ r2.confidence = r1.confidence ∧ r2.analyzers = [] := by
  have h1 := getOrCompute_miss cfg analyzers st url t0 ts0 hv hmiss
  have hlk : cacheLookup
      ({ entries := (fingerprintOf url, freshVerdict cfg analyzers url ts0 t0) ::
          st.entries.filter fun p => p.1 != fingerprintOf url } : CacheState)
      (fingerprintOf url) t1 = some (freshVerdict cfg analyzers url ts0 t0) := by
    simp [cacheLookup, List.lookup, freshVerdict, httl]
  have h2 := getOrCompute_hit cfg analyzers _ url t1 ts1 _ hv hlk
  exact ⟨runPipeline cfg analyzers url ts0, _, cachedResponse url
    (freshVerdict cfg analyzers url ts0 t0) ts1, _, h1, h2, rfl, rfl, rfl, rfl, rfl⟩

/-- C3 witness: the TTL theorem at a concrete URL against the empty cache,
with the second request one second after the first. -/
theorem cache_hit_within_ttl_witness :
    validUrl "https://Example.com/login" = true ∧
      cacheLookup { entries := [] } (fingerprintOf "https://Example.com/login") 0 = none ∧
      (1000 : ℚ) < 0 + DEFAULT_TTL_MS ∧
      ∃ r1 st1 r2 st2,
        getOrCompute sampleConfig [okAnalyzer] { entries := [] }
            "https://Example.com/login" 0 "ts0" = Except.ok (r1, st1) ∧
        getOrCompute sampleConfig [okAnalyzer] st1
            "https://Example.com/login" 1000 "ts1" = Except.ok (r2, st2) ∧
        r1.cached = false ∧ r2.cached = true ∧
        r2.score = r1.score ∧ r2.confidence = r1.confidence ∧ r2.analyzers = [] :=
  ⟨by decide, rfl, by norm_num [DEFAULT_TTL_MS],
    cache_hit_within_ttl sampleConfig [okAnalyzer] { entries := [] }
      "https://Example.com/login" 0 1000 "ts0" "ts1" (by decide) rfl
      (by norm_num [DEFAULT_TTL_MS])⟩

/-! ## Single-flight collapsing of concurrent cache misses

Modelled from the spec (§4.4, §5, §9): the per-key in-flight registry with a
shared awaitable future. The episode below models N concurrent
`getOrCompute` callers for one key whose cache entry is absent or expired;
the interleaving of their atomic steps is an arbitrary schedule. -/

/-- The phase of one concurrent caller during a single-flight episode. -/
inductive ThreadPhase
  | start
  | waiting
  | computing
  | finished (r : AnalysisResponse)
deriving DecidableEq

/-- Whether a caller has received its result. -/
def ThreadPhase.isFinished : ThreadPhase → Bool
  | ThreadPhase.finished _ => true
  | _ => false

/-- Modelled from the spec (§4.4, §9): the shared state of one single-flight
episode for one key — the cache slot for the key, whether a computation is
registered in the in-flight registry, the shared future's fulfilled value,
the number of pipeline executions so far, and each caller's phase. -/
structure SFState where
  cachedV : Option AnalysisResponse
  inflight : Bool
  future : Option AnalysisResponse
  execCount : Nat
  threads : List ThreadPhase
deriving DecidableEq

/-- Modelled from the spec (§9): one atomic step of caller `i`, where `res`
is the pipeline's deterministic result for the key. A starting caller checks
the cache, then the registry (one locked registry mutation): it takes the
cached value, or subscribes to the in-flight future, or registers itself and
starts computing. The computing caller's publish step fulfils the future,
writes the cache, deregisters, and counts one pipeline execution. A waiting
caller takes the future's value once fulfilled. -/
def sfStep (res : AnalysisResponse) (st : SFState) (i : Nat) : SFState :=
  match st.threads.get? i with
  | none => st
  | some ThreadPhase.start =>
    match st.cachedV with
    | some v => { st with threads := st.threads.set i (ThreadPhase.finished v) }
    | none =>
      if st.inflight then { st with threads := st.threads.set i ThreadPhase.waiting }
      else { st with inflight := true, threads := st.threads.set i ThreadPhase.computing }
  | some ThreadPhase.waiting =>
    match st.future with
    | some v => { st with threads := st.threads.set i (ThreadPhase.finished v) }
    | none => st
  | some ThreadPhase.computing =>
    { st with
        cachedV := some res
        future := some res
        inflight := false
        execCount := st.execCount + 1
        threads := st.threads.set i (ThreadPhase.finished res) }
  | some (ThreadPhase.finished _) => st

/-- Running a schedule (an arbitrary interleaving, as a list of caller
indices) from a state. -/
def sfRun (res : AnalysisResponse) (sched : List Nat) (st : SFState) : SFState :=
  sched.foldl (sfStep res) st

/-- The initial state of an episode with `n` concurrent callers for an
absent or expired key. -/
def sfInit (n : Nat) : SFState :=
  { cachedV := none, inflight := false, future := none, execCount := 0,
    threads := List.replicate n ThreadPhase.start }

/-- The single-flight safety invariant: at most one execution ever happens;
the cache is written exactly by the one execution and only with the
pipeline's result; the future only ever holds the pipeline's result; a
computing caller implies a registered registry entry and no completed
execution; at most one caller is computing; and a finished caller holds the
pipeline's result, with exactly one execution completed. -/
def SFInv (res : AnalysisResponse) (st : SFState) : Prop :=
  st.execCount ≤ 1 ∧
  (st.execCount = 0 ↔ st.cachedV = none) ∧
  (st.cachedV = none ∨ st.cachedV = some res) ∧
  (st.future = none ∨ (st.future = some res ∧ st.execCount = 1)) ∧
  (∀ ph ∈ st.threads, ph = ThreadPhase.computing →
    st.inflight = true ∧ st.execCount = 0) ∧
  st.threads.countP (fun ph => ph == ThreadPhase.computing) ≤ 1 ∧
  ∀ v, ThreadPhase.finished v ∈ st.threads → v = res ∧ st.execCount = 1

lemma countP_set_le_of_neg {α : Type _} (p : α → Bool) (b : α) (hb : p b = false)
    (l : List α) (n : Nat) : (l.set n b).countP p ≤ l.countP p := by
  induction l generalizing n with
  | nil => simp
  | cons a l ih =>
    cases n with
    | zero =>
      rw [show (a :: l).set 0 b = b :: l from rfl]
      by_cases hpa : p a = true
      · simp [List.countP_cons, hb, hpa]
      · simp [List.countP_cons, hb, hpa]
    | succ m =>
      rw [show (a :: l).set (m + 1) b = a :: l.set m b from rfl]
      have hm := ih m
      by_cases hpa : p a = true <;> simp [List.countP_cons, hpa] <;> omega

lemma countP_set_le_add {α : Type _} (p : α → Bool) (b : α) (l : List α) (n : Nat) :
    (l.set n b).countP p ≤ l.countP p + 1 := by
  induction l generalizing n with
  | nil => simp
  | cons a l ih =>
    cases n with
    | zero =>
      rw [show (a :: l).set 0 b = b :: l from rfl]
      by_cases hpa : p a = true
      · by_cases hpb : p b = true
        · simp [List.countP_cons, hpa, hpb]
        · simp [List.countP_cons, hpa, hpb]
          omega
      · by_cases hpb : p b = true
        · simp [List.countP_cons, hpa, hpb]
        · simp [List.countP_cons, hpa, hpb]
    | succ m =>
      rw [show (a :: l).set (m + 1) b = a :: l.set m b from rfl]
      have hm := ih m
      by_cases hpa : p a = true <;> simp [List.countP_cons, hpa] <;> omega

lemma countP_set_pos {α : Type _} (p : α → Bool) (a b : α) (l : List α) (n : Nat)
    (hget : l.get? n = some a) (hpa : p a = true) (hpb : p b = false) :
    (l.set n b).countP p + 1 ≤ l.countP p := by
  induction l generalizing n with
  | nil => simp at hget
  | cons x l ih =>
    cases n with
    | zero =>
      have hx : x = a := by simpa using hget
      rw [show (x :: l).set 0 b = b :: l from rfl]
      simp [List.countP_cons, hpb, hx, hpa]
    | succ m =>
      have hget' : l.get? m = some a := by simpa using hget
      rw [show (x :: l).set (m + 1) b = x :: l.set m b from rfl]
      have hm := ih m hget'
      by_cases hpx : p x = true <;> simp [List.countP_cons, hpx] <;> omega

lemma sfStep_inv (res : AnalysisResponse) (st : SFState) (i : Nat)
    (h : SFInv res st) : SFInv res (sfStep res st i) := by
  obtain ⟨h1, h2, h3, h4, h5, h6, h7⟩ := h
  cases hget : st.threads.get? i with
  | none =>
    simp only [sfStep, hget]
    exact ⟨h1, h2, h3, h4, h5, h6, h7⟩
  | some ph =>
    cases ph with
    | start =>
      cases hc : st.cachedV with
      | some v =>
        simp only [sfStep, hget, hc]
        have hvres : v = res := by
          rcases h3 with h3 | h3
          · rw [h3] at hc; exact absurd hc (by simp)
          · rw [h3] at hc; exact (Option.some.inj hc).symm
        have hexec1 : st.execCount = 1 := by
          have hnn : st.cachedV ≠ none := by rw [hc]; simp
          have h0 : st.execCount ≠ 0 := fun he => hnn (h2.mp he)
          omega
        refine ⟨h1, by rw [hexec1]; simp, Or.inr (by rw [hvres]), h4, ?_, ?_, ?_⟩
        · intro ph' hph' hcomp
          rcases List.mem_or_eq_of_mem_set hph' with hmem | heq
          · exact h5 ph' hmem hcomp
          · rw [heq] at hcomp; simp at hcomp
        · exact le_trans (countP_set_le_of_neg _ _ (by simp) _ _) h6
        · intro v' hmem
          rcases List.mem_or_eq_of_mem_set hmem with hmem | heq
          · exact h7 v' hmem
          · injection heq with hv'
            exact ⟨hv'.trans hvres, hexec1⟩
      | none =>
        cases hin : st.inflight with
        | true =>
          simp only [sfStep, hget, hc, hin, if_true]
          refine ⟨h1, ⟨fun _ => rfl, fun _ => h2.mpr hc⟩, Or.inl rfl, h4, ?_, ?_, ?_⟩
          · intro ph' hph' hcomp
            rcases List.mem_or_eq_of_mem_set hph' with hmem | heq
            · exact ⟨rfl, (h5 ph' hmem hcomp).2⟩
            · rw [heq] at hcomp; simp at hcomp
          · exact le_trans (countP_set_le_of_neg _ _ (by simp) _ _) h6
          · intro v' hmem
            rcases List.mem_or_eq_of_mem_set hmem with hmem | heq
            · exact h7 v' hmem
            · simp at heq
        | false =>
          simp only [sfStep, hget, hc, hin, Bool.false_eq_true, if_false]
          have hex0 : st.execCount = 0 := h2.mpr hc
          have hzero : st.threads.countP (fun ph => ph == ThreadPhase.computing) = 0 := by
            rw [List.countP_eq_zero]
            intro a ha
            simp only [beq_iff_eq, decide_eq_true_eq]
            intro heq
            have hcontr := (h5 a ha heq).1
            rw [hin] at hcontr
            exact absurd hcontr (by simp)
          refine ⟨h1, ⟨fun _ => rfl, fun _ => hex0⟩, Or.inl rfl, h4, ?_, ?_, ?_⟩
          · intro ph' hph' hcomp
            exact ⟨rfl, hex0⟩
          · exact le_trans (countP_set_le_add _ _ _ _) (by omega)
          · intro v' hmem
            rcases List.mem_or_eq_of_mem_set hmem with hmem | heq
            · exact h7 v' hmem
            · simp at heq
    | waiting =>
      cases hf : st.future with
      | none =>
        simp only [sfStep, hget, hf]
        exact ⟨h1, h2, h3, h4, h5, h6, h7⟩
      | some v =>
        simp only [sfStep, hget, hf]
        have hres4 : v = res ∧ st.execCount = 1 := by
          rcases h4 with h4 | h4
          · rw [h4] at hf; exact absurd hf (by simp)
          · obtain ⟨hfr, hx⟩ := h4
            rw [hfr] at hf
            exact ⟨(Option.some.inj hf).symm, hx⟩
        refine ⟨h1, h2, h3, Or.inr ⟨by rw [hres4.1], hres4.2⟩, ?_, ?_, ?_⟩
        · intro ph' hph' hcomp
          rcases List.mem_or_eq_of_mem_set hph' with hmem | heq
          · exact h5 ph' hmem hcomp
          · rw [heq] at hcomp; simp at hcomp
        · exact le_trans (countP_set_le_of_neg _ _ (by simp) _ _) h6
        · intro v' hmem
          rcases List.mem_or_eq_of_mem_set hmem with hmem | heq
          · exact h7 v' hmem
          · injection heq with hv'
            exact ⟨hv'.trans hres4.1, hres4.2⟩
    | computing =>
      simp only [sfStep, hget]
      have hcm : ThreadPhase.computing ∈ st.threads := List.get?_mem hget
      have hx0 : st.execCount = 0 := (h5 _ hcm rfl).2
      have hcount0 : (st.threads.set i (ThreadPhase.finished res)).countP
          (fun ph => ph == ThreadPhase.computing) = 0 := by
        have hlt := countP_set_pos (fun ph => ph == ThreadPhase.computing)
          ThreadPhase.computing (ThreadPhase.finished res) st.threads i hget
          (by simp) (by simp)
        omega
      refine ⟨by dsimp only; omega, ?_, Or.inr rfl, Or.inr ⟨rfl, by dsimp only; omega⟩,
        ?_, ?_, ?_⟩
      · constructor
        · intro hh; exact absurd hh (by dsimp only; omega)
        · intro hh; exact absurd hh (by simp)
      · intro ph' hph' hcomp
        exfalso
        have := List.countP_eq_zero.mp hcount0 ph' hph'
        rw [hcomp] at this
        simp at this
      · rw [hcount0]; omega
      · intro v' hmem
        rcases List.mem_or_eq_of_mem_set hmem with hmem | heq
        · exact absurd (h7 v' hmem).2 (by omega)
        · injection heq with hv'
          exact ⟨hv', by dsimp only; omega⟩
    | finished r =>
      simp only [sfStep, hget]
      exact ⟨h1, h2, h3, h4, h5, h6, h7⟩

lemma sfRun_inv (res : AnalysisResponse) (sched : List Nat) (st : SFState)
    (h : SFInv res st) : SFInv res (sfRun res sched st) := by
  induction sched generalizing st with
  | nil => exact h
  | cons a t ih => exact ih _ (sfStep_inv res st a h)

lemma sfStep_threads_length (res : AnalysisResponse) (st : SFState) (i : Nat) :
    (sfStep res st i).threads.length = st.threads.length := by
  cases hget : st.threads.get? i with
  | none => simp only [sfStep, hget]
  | some ph =>
    cases ph with
    | start =>
      cases hc : st.cachedV with
      | some v => simp only [sfStep, hget, hc]; simp
      | none =>
        cases hin : st.inflight with
        | true => simp only [sfStep, hget, hc, hin, if_true]; simp
        | false => simp only [sfStep, hget, hc, hin, if_false]; simp
    | waiting =>
      cases hf : st.future with
      | some v => simp only [sfStep, hget, hf]; simp
      | none => simp only [sfStep, hget, hf]
    | computing => simp only [sfStep, hget]; simp
    | finished r => simp only [sfStep, hget]

lemma sfRun_threads_length (res : AnalysisResponse) (sched : List Nat) (st : SFState) :
    (sfRun res sched st).threads.length = st.threads.length := by
  induction sched generalizing st with
  | nil => rfl
  | cons a t ih => exact (ih _).trans (sfStep_threads_length res st a)

/-- C1: for every schedule of N ≥ 1 concurrent `getOrCompute` callers for
one uncached key under the single-flight discipline, if every caller reaches
its finished phase then exactly one Orchestrator+Scorer pipeline execution
was performed, and every caller received that same pipeline result. -/
theorem single_flight_collapses (cfg : ScoringConfig) (analyzers : List Analyzer)
    (url ts : String) (n : Nat) (sched : List Nat) (hn : 1 ≤ n)
    (hdone : ∀ ph ∈ (sfRun (runPipeline cfg analyzers url ts) sched (sfInit n)).threads,
      ThreadPhase.isFinished ph = true) :
    (sfRun (runPipeline cfg analyzers url ts) sched (sfInit n)).execCount = 1 ∧
      ∀ ph ∈ (sfRun (runPipeline cfg analyzers url ts) sched (sfInit n)).threads,
        ph = ThreadPhase.finished (runPipeline cfg analyzers url ts) := by
  have hinit : SFInv (runPipeline cfg analyzers url ts) (sfInit n) := by
    refine ⟨by simp [sfInit], by simp [sfInit], Or.inl rfl, Or.inl rfl, ?_, ?_, ?_⟩
    · intro ph hph hcomp
      rw [List.eq_of_mem_replicate hph] at hcomp
      simp at hcomp
    · have : (sfInit n).threads.countP (fun ph => ph == ThreadPhase.computing) = 0 := by
        rw [List.countP_eq_zero]
        intro a ha
        rw [List.eq_of_mem_replicate ha]
        simp
      omega
    · intro v hv
      exact absurd (List.eq_of_mem_replicate hv) (by simp)
  have hinv := sfRun_inv (runPipeline cfg analyzers url ts) sched (sfInit n) hinit
  obtain ⟨hi1, hi2, hi3, hi4, hi5, hi6, hi7⟩ := hinv
  have hlen : (sfRun (runPipeline cfg analyzers url ts) sched (sfInit n)).threads.length = n := by
    rw [sfRun_threads_length]
    simp [sfInit]
  have hne : (sfRun (runPipeline cfg analyzers url ts) sched (sfInit n)).threads ≠ [] := by
    intro hnil
    rw [hnil] at hlen
    simp at hlen
    omega
  obtain ⟨ph0, hph0⟩ := List.exists_mem_of_ne_nil _ hne
  have hf0 := hdone ph0 hph0
  have hexec : (sfRun (runPipeline cfg analyzers url ts) sched (sfInit n)).execCount = 1 := by
    cases ph0 with
    | finished v0 => exact (hi7 v0 hph0).2
    | start => simp [ThreadPhase.isFinished] at hf0
    | waiting => simp [ThreadPhase.isFinished] at hf0
    | computing => simp [ThreadPhase.isFinished] at hf0
  refine ⟨hexec, ?_⟩
  intro ph hph
  have hfp := hdone ph hph
  cases ph with
  | finished v => exact congrArg ThreadPhase.finished (hi7 v hph).1
  | start => simp [ThreadPhase.isFinished] at hfp
  | waiting => simp [ThreadPhase.isFinished] at hfp
  | computing => simp [ThreadPhase.isFinished] at hfp

/-- C1 witness: three concurrent callers under the concrete schedule
0,1,2,0,1,2 — the first caller registers and computes, the other two wait on
the future, and all three finish with the one pipeline result. -/
theorem single_flight_collapses_witness :
    1 ≤ 3 ∧
      (∀ ph ∈ (sfRun (runPipeline sampleConfig [] "https://e.example" "t0")
          [0, 1, 2, 0, 1, 2] (sfInit 3)).threads, ThreadPhase.isFinished ph = true) ∧
      ((sfRun (runPipeline sampleConfig [] "https://e.example" "t0")
          [0, 1, 2, 0, 1, 2] (sfInit 3)).execCount = 1 ∧
        ∀ ph ∈ (sfRun (runPipeline sampleConfig [] "https://e.example" "t0")
            [0, 1, 2, 0, 1, 2] (sfInit 3)).threads,
          ph = ThreadPhase.finished (runPipeline sampleConfig [] "https://e.example" "t0")) :=
  ⟨by decide, by decide,
    single_flight_collapses sampleConfig [] "https://e.example" "t0" 3
      [0, 1, 2, 0, 1, 2] (by decide) (by decide)⟩

end Phisherman
